import Mathlib

set_option maxRecDepth 8192

/-!
Verification development for the Lemmy-to-Telegram republishing bot
(`main.py`).  The Python source is shallowly embedded: the HTML tree that
BeautifulSoup produces is the inductive `Node`; the rewrite loop of
`html_minify`, the image locator `find_image`, the dedup-store operations
of `Scraper` (`filter_posts`, `record_posts`, `refuse`), `send_post`'s
branch selection, and the `tick` orchestration are translated function by
function.  External collaborators (HTTP fetch, the Telegram API, the
minify-html pre-pass) are modelled at their interface boundary.
-/

namespace LemmyBot

/-- Errors the embedded pipeline can signal.  `indexError` models the
Python `IndexError` raised by `child[0]` on an empty list.
`parseUnsupported` is a model artifact: the embedded HTML parser covers
the well-formed fragment grammar used in this development and rejects
anything else, whereas `BeautifulSoup(…, "html.parser")` is lenient and
never raises. -/
inductive MinifyErr where
  | indexError
  | parseUnsupported
deriving DecidableEq

/-- Characters stripped by Python's `str.strip()` (the inputs in this
development are ASCII, so the extra Unicode whitespace Python also strips
never occurs). -/
def isSpaceChar (c : Char) : Bool :=
  c == ' ' || c == '\n' || c == '\t' || c == '\r'

/-- Python `str.strip()`: drop leading and trailing whitespace. -/
def pyStrip (s : String) : String :=
  ⟨((s.data.dropWhile isSpaceChar).reverse.dropWhile isSpaceChar).reverse⟩

/-- Python `needle in haystack` on strings (contiguous substring test). -/
def strContains (needle haystack : String) : Bool :=
  go needle.data haystack.data
where
  go (n : List Char) : List Char → Bool
    | [] => n.isEmpty
    | c :: cs => n.isPrefixOf (c :: cs) || go n cs

/-- Python `str.endswith(suffix)`. -/
def strEndsWith (suffix s : String) : Bool :=
  suffix.data.reverse.isPrefixOf s.data.reverse

/-- A node of the parsed HTML tree, as produced by
`BeautifulSoup(html, "html.parser")`: either a `NavigableString` or a
`Tag` with a name, an attribute list (insertion order preserved, first
occurrence wins on lookup) and a children list. -/
inductive Node where
  | text : String → Node
  | elem : String → List (String × String) → List Node → Node

mutual
/-- Python `tag.text` / `str(navigable_string)`: concatenation of every string
in the subtree, no separators (BeautifulSoup `get_text()`). -/
def nodeText : Node → String
  | .text s => s
  | .elem _ _ cs => listText cs

/-- Python `get_text()` over a list of sibling nodes. -/
def listText : List Node → String
  | [] => ""
  | c :: cs => nodeText c ++ listText cs
end

/-- One character of text content, HTML-escaped the way BeautifulSoup's
`minimal` output formatter escapes string content. -/
def escapeChar (c : Char) : String :=
  if c == '&' then "&amp;"
  else if c == '<' then "&lt;"
  else if c == '>' then "&gt;"
  else ⟨[c]⟩

/-- Escaping of text-node content in `str(soup)`. -/
def escapeText (s : String) : String :=
  String.join (s.data.map escapeChar)

/-- Escaping of attribute values in `str(soup)`. -/
def escapeAttrChar (c : Char) : String :=
  if c == '&' then "&amp;"
  else if c == '"' then "&quot;"
  else if c == '<' then "&lt;"
  else if c == '>' then "&gt;"
  else ⟨[c]⟩

/-- One serialized attribute, ` name="value"`. -/
def serAttr (a : String × String) : String :=
  " " ++ a.1 ++ "=\"" ++ String.join (a.2.data.map escapeAttrChar) ++ "\""

/-- Serialized attribute list. -/
def serAttrs (attrs : List (String × String)) : String :=
  String.join (attrs.map serAttr)

mutual
/-- Serialization `str(node)` of one node back to HTML text. -/
def serNode : Node → String
  | .text s => escapeText s
  | .elem name attrs cs =>
      "<" ++ name ++ serAttrs attrs ++ ">" ++ serList cs ++ "</" ++ name ++ ">"

/-- Serialization `str(soup)` of a list of sibling nodes. -/
def serList : List Node → String
  | [] => ""
  | c :: cs => serNode c ++ serList cs
end

/-- The inline vocabulary `html_minify` leaves untouched
(`["a", "b", "strong", "i", "em"]` in `main.py`). -/
def preservedTags : List String := ["a", "b", "strong", "i", "em"]

mutual
/-- One processing step of a single tag in one pass of `html_minify`'s
rewrite loop.  The loop visits `soup.find_all(True)[::-1]`, i.e. every
tag in reverse document order, so every descendant is rewritten before
its parent; functionally that is a children-first rewrite, with each
`replace_with` call mapping one child node to one replacement node.  The
rule chain mirrors lines 74-86 of `main.py` exactly:
`br` → newline; `p` → newline plus stripped text; `li` → stripped text
plus stripped text of `child[0]` (reading `child[0]` before the
no-children case is ever reached, hence `indexError` on an empty `li`);
the preserved vocabulary is skipped; a childless tag becomes its
(empty) stripped text; a single-child tag is replaced by that child;
anything else is left for a later pass. -/
def passNode : Node → Except MinifyErr Node
  | .text s => .ok (.text s)
  | .elem name attrs children =>
    match passList children with
    | .error e => .error e
    | .ok cs =>
      if name == "br" then .ok (.text "\n")
      else if name == "p" then .ok (.text ("\n" ++ pyStrip (listText cs)))
      else if name == "li" then
        match cs with
        | [] => .error .indexError
        | c :: _ => .ok (.text (pyStrip (listText cs) ++ pyStrip (nodeText c)))
      else if name ∈ preservedTags then .ok (.elem name attrs cs)
      else
        match cs with
        | [] => .ok (.text (pyStrip (listText cs)))
        | [c] => .ok c
        | _ => .ok (.elem name attrs cs)

/-- One rewrite pass over a list of sibling nodes (children first). -/
def passList : List Node → Except MinifyErr (List Node)
  | [] => .ok []
  | c :: cs =>
    match passNode c with
    | .error e => .error e
    | .ok c' =>
      match passList cs with
      | .error e => .error e
      | .ok cs' => .ok (c' :: cs')
end

/-- The `for _ in range(len(html_doc))` fixed-point loop of
`html_minify`: at most `fuel` passes; before each pass the serialized
length is recorded, and the loop stops as soon as a pass leaves the
serialized length unchanged (returning the post-pass tree). -/
def minifyLoop : Nat → List Node → Except MinifyErr (List Node)
  | 0, ns => .ok ns
  | fuel + 1, ns =>
    match passList ns with
    | .error e => .error e
    | .ok ns' =>
      if (serList ns').length == (serList ns).length then .ok ns'
      else minifyLoop fuel ns'

/-- Characters allowed in tag and attribute names by the embedded
parser (the concrete documents of this development use lowercase ASCII
names only, which `html.parser` keeps verbatim). -/
def isNameChar (c : Char) : Bool :=
  'a' ≤ c && c ≤ 'z'

/-- Attribute-list parser: after the tag name, a sequence of
` name="value"` attributes terminated by `>`.  Anything else is outside
the modelled grammar. -/
def parseAttrs : Nat → List Char → Except MinifyErr (List (String × String) × List Char)
  | 0, _ => .error .parseUnsupported
  | fuel + 1, cs =>
    match cs with
    | '>' :: rest => .ok ([], rest)
    | ' ' :: rest =>
      match rest.takeWhile isNameChar, rest.dropWhile isNameChar with
      | [], _ => .error .parseUnsupported
      | nm, '=' :: '"' :: rest1 =>
        match rest1.dropWhile (fun c => c != '"') with
        | '"' :: rest2 =>
          match parseAttrs fuel rest2 with
          | .error e => .error e
          | .ok (attrs, rest3) =>
            .ok ((⟨nm⟩, ⟨rest1.takeWhile (fun c => c != '"')⟩) :: attrs, rest3)
        | _ => .error .parseUnsupported
      | _, _ => .error .parseUnsupported
    | _ => .error .parseUnsupported

/-- Recursive-descent parser for the well-formed HTML fragment grammar
used in this development: text runs (without `&` entities), and
explicitly closed elements with double-quoted attributes.  On this
grammar it produces exactly the tree `BeautifulSoup(…, "html.parser")`
produces (maximal text runs become single string nodes, attribute
values — including embedded newlines — are kept verbatim); documents
outside the grammar are rejected with `parseUnsupported` rather than
error-recovered.  Returns the parsed siblings together with the
unconsumed remainder (which starts with `</` or is empty). -/
def parseNodes : Nat → List Char → Except MinifyErr (List Node × List Char)
  | 0, _ => .error .parseUnsupported
  | fuel + 1, cs =>
    match cs with
    | [] => .ok ([], [])
    | '<' :: '/' :: rest => .ok ([], '<' :: '/' :: rest)
    | '<' :: rest =>
      match rest.takeWhile isNameChar with
      | [] => .error .parseUnsupported
      | nm =>
        match parseAttrs fuel (rest.dropWhile isNameChar) with
        | .error e => .error e
        | .ok (attrs, rest1) =>
          match parseNodes fuel rest1 with
          | .error e => .error e
          | .ok (children, rest2) =>
            match rest2 with
            | '<' :: '/' :: rest3 =>
              if rest3.take nm.length = nm then
                match rest3.drop nm.length with
                | '>' :: rest4 =>
                  match parseNodes fuel rest4 with
                  | .error e => .error e
                  | .ok (siblings, rest5) =>
                    .ok (Node.elem ⟨nm⟩ attrs children :: siblings, rest5)
                | _ => .error .parseUnsupported
              else .error .parseUnsupported
            | _ => .error .parseUnsupported
    | c :: rest =>
      if c == '&' then .error .parseUnsupported
      else
        match (c :: rest).dropWhile (fun ch => ch != '<' && ch != '&') with
        | '&' :: _ => .error .parseUnsupported
        | rest1 =>
          match parseNodes fuel rest1 with
          | .error e => .error e
          | .ok (siblings, rest2) =>
            .ok (Node.text ⟨(c :: rest).takeWhile (fun ch => ch != '<' && ch != '&')⟩ :: siblings, rest2)

/-- Parse a whole document (`BeautifulSoup(doc, "html.parser")`). -/
def parseHtml (s : String) : Except MinifyErr (List Node) :=
  match parseNodes (s.length + 1) s.data with
  | .error e => .error e
  | .ok (ns, []) => .ok ns
  | .ok (_, _ :: _) => .error .parseUnsupported

/-- External library `minify_html.minify`, modelled at its interface:
on the already-minimal documents of this development (no insignificant
whitespace, no comments, no omitted-tag opportunities that change the
parsed tree) it returns a document that parses to the same tree as its
input, so it is modelled as the identity. -/
def minifyLib (s : String) : String := s

/-- Function `html_minify` (`main.py` lines 60-90): pre-minify, parse, run the
length-based fixed-point rewrite loop at most `len(html_doc)` times,
serialize. -/
def html_minify (html_doc : String) : Except MinifyErr String :=
  match parseHtml (minifyLib html_doc) with
  | .error e => .error e
  | .ok ns =>
    match minifyLoop html_doc.length ns with
    | .error e => .error e
    | .ok ns' => .ok (serList ns')

/-! ## Image Locator -/

mutual
/-- Python `doc.find_all("a")` restricted to one subtree: the attribute lists
of every `a` element, in document (pre-)order. -/
def anchorsNode : Node → List (List (String × String))
  | .text _ => []
  | .elem name attrs cs =>
      (if name == "a" then [attrs] else []) ++ anchorsList cs

/-- Python `doc.find_all("a")` over a list of sibling subtrees. -/
def anchorsList : List Node → List (List (String × String))
  | [] => []
  | c :: cs => anchorsNode c ++ anchorsList cs
end

/-- The image-extension alternatives of the regular expression
`r"\.(jpg|jpeg|png|gif|webp)$"` in `find_image`. -/
def imageExts : List String := ["jpg", "jpeg", "png", "gif", "webp"]

/-- Python `re.search(r"\.(jpg|jpeg|png|gif|webp)$", href) or "imgur" in href`,
with Python's end-of-pattern anchor semantics: `$` matches at the very
end of the string or just before a newline at the end of the string, so
the regular expression accepts both `….ext` and `….ext\n`. -/
def pyMatchImage (href : String) : Bool :=
  imageExts.any (fun e =>
      strEndsWith ("." ++ e) href || strEndsWith ("." ++ e ++ "\n") href)
    || strContains "imgur" href

/-- The anchor scan of `find_image` (`main.py` lines 174-184): walk the
anchors in document order, skip anchors without an `href` attribute,
return the first `href` accepted by the regular-expression-or-imgur
test. -/
def findImageAnchors : List (List (String × String)) → Option String
  | [] => none
  | attrs :: rest =>
    match attrs.lookup "href" with
    | none => findImageAnchors rest
    | some href =>
      if pyMatchImage href then some href else findImageAnchors rest

/-- Method `Scraper.find_image` on a description HTML string (`main.py` lines
163-184): parse the description, scan the anchors.  In Python the parse
step cannot fail; the error case here is only the embedded parser's
restricted grammar. -/
def find_image (desc : String) : Except MinifyErr (Option String) :=
  match parseHtml desc with
  | .error e => .error e
  | .ok ns => .ok (findImageAnchors (anchorsList ns))

/-! Spec-side image-locator definitions, written from the words of the
claims rather than from the source, for the refinement comparison. -/

/-- The matching predicate exactly as claim C5 states it: the link
target ends with one of the extensions (anchored at the very end of the
string, case-sensitively, with the extension preceded by a period) or
contains the substring `imgur` anywhere. -/
def claimMatchImage (href : String) : Bool :=
  imageExts.any (fun e => strEndsWith ("." ++ e) href)
    || strContains "imgur" href

/-- The claim-C5 matching predicate amended by the counterexample: the
Python `$` anchor also accepts one trailing newline after the
extension. -/
def amendedMatchImage (href : String) : Bool :=
  imageExts.any (fun e => strEndsWith ("." ++ e) href)
    || imageExts.any (fun e => strEndsWith ("." ++ e ++ "\n") href)
    || strContains "imgur" href

/-- The image locator as the amended claim C5 describes it: among the
anchors in document order, keep those with a link attribute, and return
the first link accepted by the amended matching predicate; absent if
none. -/
def findImageSpec (ns : List Node) : Option String :=
  ((anchorsList ns).filterMap (fun attrs => attrs.lookup "href")).find?
    amendedMatchImage

/-! ## Dedup Store and Scraper operations -/

/-- A feed post, `main.py`'s `Post` dictionary.  `image = none` models
the `"image"` key being absent from the dictionary; `image = some v`
models the key being present with value `v`, where `v = none` models
Python `None` (the `str | None` result of `find_image`). -/
structure Post where
  guid : String
  title : String
  link : String
  description : String
  comments : String
  image : Option (Option String) := none
deriving DecidableEq

/-- The dedup store: `state["visited"]`, an ordered list of guids. -/
abbrev Visited := List String

/-- Method `Scraper.filter_posts`: keep the posts whose guid is not in the
visited list (`main.py` lines 102-115). -/
def filter_posts (visited : Visited) (posts : List Post) : List Post :=
  posts.filter (fun post => !(visited.contains post.guid))

/-- Method `Scraper.record_posts`: append all guids, then keep the last 500
(`self.state["visited"][-500:]`, `main.py` lines 117-124). -/
def record_posts (visited : Visited) (posts : List Post) : Visited :=
  (visited ++ posts.map Post.guid).drop
    ((visited ++ posts.map Post.guid).length - 500)

/-- Method `Scraper.refuse`: if the post's guid is in the visited list, remove
its first occurrence (`list.remove`, `main.py` lines 221-228). -/
def refuse (visited : Visited) (post : Post) : Visited :=
  if visited.contains post.guid then visited.erase post.guid else visited

/-- The first per-post loop of `Scraper.new_posts` (lines 198-199):
replace every description by its `html_minify` result; the first raised
exception aborts the whole loop. -/
def minifyAll : List Post → Except MinifyErr (List Post)
  | [] => .ok []
  | p :: ps =>
    match html_minify p.description with
    | .error e => .error e
    | .ok desc =>
      match minifyAll ps with
      | .error e => .error e
      | .ok ps' => .ok ({ p with description := desc } :: ps')

/-- The second per-post loop of `Scraper.new_posts` (lines 200-201):
`post["image"] = self.find_image(post)` — the `image` key is set on
EVERY post, to the possibly-`None` result of `find_image` on the
(already minified) description. -/
def annotateAll : List Post → Except MinifyErr (List Post)
  | [] => .ok []
  | p :: ps =>
    match find_image p.description with
    | .error e => .error e
    | .ok img =>
      match annotateAll ps with
      | .error e => .error e
      | .ok ps' => .ok ({ p with image := some img } :: ps')

/-- Feed-fetch failures of `Scraper.fetch_new_posts`: transport errors
and non-200 statuses (`HTTPFailed`), unparseable feed bodies
(`ParseFeedFailed`).  The HTTP transport itself is external, so a tick
is modelled as receiving the fetch outcome as data. -/
inductive FetchErr where
  | http
  | parseFeed
deriving DecidableEq

/-- An exception escaping `Scraper.new_posts` (all are caught by
`tick`): a fetch/parse failure, or an exception from the
minify/annotate loops. -/
inductive NewPostsErr where
  | fetch (e : FetchErr)
  | pipeline (e : MinifyErr)
deriving DecidableEq

/-- Method `Scraper.new_posts` (`main.py` lines 186-203) given the fetch
outcome: filter against the visited list, record the filtered guids
(before any cleaning — so the state mutation survives even when a later
step raises), minify every description, annotate every post with the
image key.  Returns the outcome together with the visited list as the
scraper object holds it afterwards. -/
def new_posts (fetched : Except FetchErr (List Post)) (visited : Visited) :
    Except NewPostsErr (List Post) × Visited :=
  match fetched with
  | .error e => (.error (.fetch e), visited)
  | .ok posts =>
    let fresh := filter_posts visited posts
    let visited' := record_posts visited fresh
    match minifyAll fresh with
    | .error e => (.error (.pipeline e), visited')
    | .ok minified =>
      match annotateAll minified with
      | .error e => (.error (.pipeline e), visited')
      | .ok ready => (.ok ready, visited')

/-! ## Delivery -/

/-- The `HTML_MESSAGE` template of `main.py`:
newline, `<b>{title}</b>`, newline, `---`, newline, `{desc}`, two
newlines. -/
def HTML_MESSAGE_format (title desc : String) : String :=
  "\n<b>" ++ title ++ "</b>\n---\n" ++ desc ++ "\n\n"

/-- The two delivery shapes of `send_post`: a one-photo media group
with an HTML caption (the photo bytes are fetched from `imageUrl`,
which is `none` when the dictionary value was Python `None`), or a
plain HTML message with link-preview generation disabled. -/
inductive SendAction where
  | mediaGroup (imageUrl : Option String) (caption : String)
  | message (body : String) (disableWebPagePreview : Bool)
deriving DecidableEq

/-- The branch selection of `send_post` (`main.py` lines 242-265):
`if "image" in post` chooses the media-group shape — the KEY test, not
a `None` test — otherwise the text message with
`disable_web_page_preview=True`. -/
def send_post_action (post : Post) : SendAction :=
  match post.image with
  | some img => .mediaGroup img (HTML_MESSAGE_format post.title post.description)
  | none => .message (HTML_MESSAGE_format post.title post.description) true

/-- Whether `send_post` returns `True` for a post, given an oracle for
the external network/Telegram outcome of the attempted action.  A
media-group send whose stored image value is Python `None` always
fails: `requests.get(None)` raises and the `except` clauses convert
every exception into `False`. -/
def send_post_ok (deliverOk : SendAction → Bool) (post : Post) : Bool :=
  match send_post_action post with
  | .mediaGroup none _ => false
  | act => deliverOk act

/-! ## Tick orchestration -/

/-- Observable outcome of one `tick` (`main.py` lines 277-302):
the posts handed to `send_post` in order, the in-memory visited list
when the tick ends, and the visited list written to `scraper.json`
(`none` when the tick returned without saving). -/
structure TickResult where
  attempted : List Post
  visited : Visited
  persisted : Option Visited
deriving DecidableEq

/-- Function `tick`: obtain `new_posts` (any exception is caught, logged, and
the function RETURNS — nothing is persisted on that path); otherwise
send every post in feed order, call `refuse` on each failed delivery,
and finally save the state file unconditionally. -/
def tick (fetched : Except FetchErr (List Post)) (sendOk : Post → Bool)
    (visited : Visited) : TickResult :=
  match new_posts fetched visited with
  | (.error _, v') => ⟨[], v', none⟩
  | (.ok posts, v') =>
    let vFinal := posts.foldl (fun v p => if sendOk p then v else refuse v p) v'
    ⟨posts, vFinal, some vFinal⟩

/-! ## Auxiliary definitions for the statements -/

/-- A concrete post with a given guid, for witnesses and
counterexamples. -/
def tpost (g : String) : Post :=
  { guid := g, title := "t", link := "l", description := "d", comments := "c" }

/-- A concrete post with a given guid and description. -/
def tpostd (g d : String) : Post :=
  { guid := g, title := "t", link := "l", description := d, comments := "c" }

/-- A concrete feed post whose description holds a single anchor that
is neither an image link nor an imgur link. -/
def noImagePost : Post :=
  { guid := "g", title := "t", link := "l",
    description := "<a href=\"http://example.com/\">c</a>", comments := "c" }

/-- Post `noImagePost` as `new_posts` hands it to delivery: description
minified (unchanged here), and the `image` key present with value
`None`. -/
def noImagePostReady : Post :=
  { noImagePost with image := some none }

mutual
/-- No `br`, `p` or `li` element anywhere in the subtree (the three
rewrite rules that change text content: `br` injects a newline, `p`
strips and prefixes a newline, `li` duplicates its first child's
text). -/
def goodNode : Node → Bool
  | .text _ => true
  | .elem name _ cs =>
      !(name == "br") && !(name == "p") && !(name == "li") && goodList cs

/-- Predicate `goodNode` over a list of sibling subtrees. -/
def goodList : List Node → Bool
  | [] => true
  | c :: cs => goodNode c && goodList cs
end

/-! ## Claims -/

/-- C3: on an `li` element with no children — concretely the input
`"<li></li>"` — `html_minify` raises `IndexError` instead of returning
a string: the `li` rule reads `child[0]` unconditionally, before the
no-children case of the rule chain is ever reached. -/
theorem C3_li_empty_index_error :
    html_minify "<li></li>" = .error .indexError := rfl

/-- C1 (code bug): a post whose description contains no image link still
gets the `"image"` key — set to `None` — by `new_posts`, so `send_post`'s
`if "image" in post` test routes it to the image+caption shape (with a
`None` image URL, so `requests.get(None)` raises and delivery always
fails), never to the text-only message shape the spec describes. -/
theorem C1_text_branch_unreachable :
    (new_posts (.ok [noImagePost]) []).1 = .ok [noImagePostReady]
    ∧ send_post_action noImagePostReady
        = .mediaGroup none
            (HTML_MESSAGE_format "t" "<a href=\"http://example.com/\">c</a>")
    ∧ ∀ deliverOk, send_post_ok deliverOk noImagePostReady = false :=
  ⟨rfl, rfl, fun _ => rfl⟩

/-- C2 counterexample: when the fetch fails, `tick` returns early —
before the `with open(...)` block — so nothing is persisted
(`persisted = none`), contradicting the claim that the store is still
persisted at tick end. -/
theorem C2_fetch_failure_not_persisted :
    tick (.error .http) (fun _ => true) ["v0"] = ⟨[], ["v0"], none⟩ := rfl

/-- C2 as amended: if obtaining `new_posts` fails, the tick sends no
posts, leaves the store unchanged, and does NOT persist it (the early
`return` skips the save); when `new_posts` succeeds, the store is
persisted unconditionally after processing, whatever the delivery
outcomes were. -/
theorem C2_persistence :
    (∀ (e : FetchErr) (sendOk : Post → Bool) (visited : Visited),
        tick (.error e) sendOk visited = ⟨[], visited, none⟩)
    ∧ ∀ (fetched : Except FetchErr (List Post)) (sendOk : Post → Bool)
        (visited : Visited) (posts : List Post) (v' : Visited),
        new_posts fetched visited = (.ok posts, v') →
        (tick fetched sendOk visited).persisted
          = some ((tick fetched sendOk visited).visited) := by
  constructor
  · intro e sendOk visited; rfl
  · intro fetched sendOk visited posts v' h
    simp [tick, h]

/-- Witness for C2: both parts of the amended statement at concrete
inputs. -/
theorem C2_persistence_witness :
    tick (.error .parseFeed) (fun _ => false) ["a"] = ⟨[], ["a"], none⟩
    ∧ (tick (.ok []) (fun _ => true) []).persisted
        = some ((tick (.ok []) (fun _ => true) []).visited) :=
  ⟨C2_persistence.1 .parseFeed (fun _ => false) ["a"],
   C2_persistence.2 (.ok []) (fun _ => true) [] [] [] rfl⟩

/-- C6: recording appends the guids and then truncates to the most
recent 500 by dropping from the front; recording 600 identifiers into
an empty store leaves exactly the last 500, oldest-first order
preserved among the survivors. -/
theorem C6_record_cap (posts : List Post) (h : posts.length = 600) :
    record_posts [] posts = (posts.map Post.guid).drop 100
    ∧ (record_posts [] posts).length = 500 := by
  unfold record_posts
  constructor
  · rw [List.nil_append, List.length_map, h]
  · rw [List.nil_append, List.length_drop, List.length_map, h]

/-- Witness for C6 at a concrete list of 600 posts. -/
theorem C6_record_cap_witness :
    (List.replicate 600 (tpost "g")).length = 600
    ∧ record_posts [] (List.replicate 600 (tpost "g"))
        = ((List.replicate 600 (tpost "g")).map Post.guid).drop 100 :=
  ⟨by rw [List.length_replicate],
   (C6_record_cap (List.replicate 600 (tpost "g")) (by rw [List.length_replicate])).1⟩

/-- C7 counterexample: the claim quantifies over ANY list of
identifiers, but recording 501 posts into an empty store evicts the
first one, so filtering the same posts afterwards returns the evicted
post again instead of the empty list. -/
theorem C7_roundtrip_cx :
    filter_posts (record_posts [] (tpost "a" :: List.replicate 500 (tpost "b")))
      (tpost "a" :: List.replicate 500 (tpost "b")) ≠ [] := by
  have hmap : (tpost "a" :: List.replicate 500 (tpost "b")).map Post.guid
      = "a" :: List.replicate 500 "b" := by
    rw [List.map_cons, List.map_replicate]; rfl
  have hrec : record_posts [] (tpost "a" :: List.replicate 500 (tpost "b"))
      = List.replicate 500 "b" := by
    unfold record_posts
    rw [List.nil_append, hmap, List.length_cons, List.length_replicate]
    norm_num
  have hpos : (fun post => !(List.replicate 500 "b").contains post.guid) (tpost "a") = true := by
    decide
  have step := @List.filter_cons_of_pos Post
    (fun post => !(List.replicate 500 "b").contains post.guid) (tpost "a")
    (List.replicate 500 (tpost "b")) hpos
  unfold filter_posts
  rw [hrec, step]
  exact List.cons_ne_nil _ _

/-- C7 as amended: the record-then-filter round trip returns the empty
list whenever the combined store stays within the 500-entry cap, and
refusing an identifier recorded exactly once makes a filter of that
identifier return it again.  (In general, identifiers evicted by the
cap are returned again by the filter even without a refuse, and refuse
removes only one copy of a duplicated identifier.) -/
theorem C7_roundtrip_cap :
    (∀ (visited : Visited) (posts : List Post),
        visited.length + posts.length ≤ 500 →
        filter_posts (record_posts visited posts) posts = [])
    ∧ ∀ (visited : Visited) (p : Post),
        visited.count p.guid = 1 →
        filter_posts (refuse visited p) [p] = [p] := by
  constructor
  · intro visited posts h
    have hlen : (visited ++ posts.map Post.guid).length - 500 = 0 := by
      rw [List.length_append, List.length_map]; omega
    unfold record_posts filter_posts
    rw [hlen, List.drop_zero, List.filter_eq_nil_iff]
    intro p hp
    have hmem : p.guid ∈ visited ++ posts.map Post.guid :=
      List.mem_append_right _ (List.mem_map_of_mem _ hp)
    simp [List.contains, hmem]
  · intro visited p h
    have hmem : p.guid ∈ visited := List.count_pos_iff.mp (by omega)
    have hnot : p.guid ∉ visited.erase p.guid := by
      rw [← List.count_eq_zero, List.count_erase_self]; omega
    have hc : visited.contains p.guid = true := by
      simp [List.contains, hmem]
    unfold refuse filter_posts
    rw [hc]
    simp [List.contains, hnot]

/-- Witness for C7 at concrete inputs: one post recorded within the
cap filters to nothing, and refusing a once-recorded identifier makes
it filterable again. -/
theorem C7_roundtrip_cap_witness :
    filter_posts (record_posts [] [tpost "w"]) [tpost "w"] = []
    ∧ filter_posts (refuse ["w"] (tpost "w")) [tpost "w"] = [tpost "w"] :=
  ⟨C7_roundtrip_cap.1 [] [tpost "w"] (by decide),
   C7_roundtrip_cap.2 ["w"] (tpost "w") (by decide)⟩

/-- C10: delivery failure is isolated per post.  For a tick whose batch
is two fresh posts `A` then `B` (store within the cap), where delivery
fails for `A` and succeeds for `B`: both posts are attempted, in feed
order; only `A`'s identifier is removed from the store, `B`'s stays
recorded; and the resulting store is persisted. -/
theorem C10_failure_isolation
    (A B : Post) (dA dB : String) (iA iB : Option String)
    (visited : Visited) (sendOk : Post → Bool)
    (_hguid : A.guid ≠ B.guid)
    (hA : visited.contains A.guid = false)
    (hB : visited.contains B.guid = false)
    (hcap : visited.length + 2 ≤ 500)
    (hmA : html_minify A.description = .ok dA)
    (hmB : html_minify B.description = .ok dB)
    (hiA : find_image dA = .ok iA)
    (hiB : find_image dB = .ok iB)
    (hsA : ∀ p : Post, p.guid = A.guid → sendOk p = false)
    (hsB : ∀ p : Post, p.guid = B.guid → sendOk p = true) :
    tick (.ok [A, B]) sendOk visited =
      ⟨[{ A with description := dA, image := some iA },
          { B with description := dB, image := some iB }],
        visited ++ [B.guid], some (visited ++ [B.guid])⟩ := by
  have hAmem : A.guid ∉ visited := by
    intro hm
    have h1 : List.elem A.guid visited = true := List.elem_eq_true_of_mem hm
    have h2 : List.elem A.guid visited = false := hA
    rw [h1] at h2
    cases h2
  have hBmem : B.guid ∉ visited := by
    intro hm
    have h1 : List.elem B.guid visited = true := List.elem_eq_true_of_mem hm
    have h2 : List.elem B.guid visited = false := hB
    rw [h1] at h2
    cases h2
  have hfilter : filter_posts visited [A, B] = [A, B] := by
    simp [filter_posts]
    exact ⟨hAmem, hBmem⟩
  have hrec : record_posts visited [A, B] = visited ++ [A.guid, B.guid] := by
    unfold record_posts
    have hlen : (visited ++ [A, B].map Post.guid).length - 500 = 0 := by
      rw [List.length_append, List.length_map]
      simp only [List.length_cons, List.length_nil]
      omega
    rw [hlen, List.drop_zero]
    rfl
  have hmin : minifyAll [A, B]
      = .ok [{ A with description := dA }, { B with description := dB }] := by
    simp only [minifyAll, hmA, hmB]
  have hann : annotateAll [{ A with description := dA }, { B with description := dB }]
      = .ok [{ A with description := dA, image := some iA },
          { B with description := dB, image := some iB }] := by
    simp only [annotateAll, hiA, hiB]
  have hnp : new_posts (.ok [A, B]) visited
      = (.ok [{ A with description := dA, image := some iA },
            { B with description := dB, image := some iB }],
         visited ++ [A.guid, B.guid]) := by
    simp only [new_posts, hfilter, hrec, hmin, hann]
  have hsA' : sendOk { A with description := dA, image := some iA } = false := hsA _ rfl
  have hsB' : sendOk { B with description := dB, image := some iB } = true := hsB _ rfl
  have hcont : (visited ++ [A.guid, B.guid]).contains A.guid = true :=
    List.elem_eq_true_of_mem (List.mem_append_right _ (List.mem_cons_self _ _))
  have herase : (visited ++ [A.guid, B.guid]).erase A.guid = visited ++ [B.guid] := by
    rw [List.erase_append_right _ hAmem, List.erase_cons_head]
  have hrefuse : refuse (visited ++ [A.guid, B.guid])
      { A with description := dA, image := some iA } = visited ++ [B.guid] := by
    unfold refuse
    rw [show ({ A with description := dA, image := some iA } : Post).guid = A.guid from rfl,
      hcont, herase]
    simp
  simp only [tick, hnp, List.foldl_cons, List.foldl_nil, hsA', hsB']
  simp [hrefuse]

/-- Witness for C10 at concrete posts: `A` (guid `ga`) fails, `B`
(guid `gb`) succeeds, starting from an empty store. -/
theorem C10_failure_isolation_witness :
    tick (.ok [tpostd "ga" "x", tpostd "gb" "y"]) (fun p => p.guid == "gb") [] =
      ⟨[{ tpostd "ga" "x" with description := "x", image := some none },
          { tpostd "gb" "y" with description := "y", image := some none }],
        ["gb"], some ["gb"]⟩ :=
  C10_failure_isolation (tpostd "ga" "x") (tpostd "gb" "y") "x" "y" none none []
    (fun p => p.guid == "gb") (by decide) rfl rfl (by decide) rfl rfl rfl rfl
    (fun p hp => by simp only [hp]; decide) (fun p hp => by simp only [hp]; decide)

/-- C9: paragraph flattening.  Concretely,
`normalize("<p>Hello <b>world</b>") = "\nHello world"`: the inner `b`
tag is dropped and the result is a newline followed by `Hello world`.
In general the `p` rule replaces the element with a newline followed by
the trimmed plain-text content of its (already rewritten) children,
discarding all nested markup. -/
theorem C9_paragraph_flattening :
    html_minify "<p>Hello <b>world</b></p>" = .ok "\nHello world"
    ∧ ∀ (attrs : List (String × String)) (children : List Node),
        passNode (.elem "p" attrs children)
          = (passList children).map (fun cs => Node.text ("\n" ++ pyStrip (listText cs))) := by
  refine ⟨rfl, fun attrs children => ?_⟩
  cases h : passList children with
  | error e => simp [passNode, h, Except.map]
  | ok cs => simp [passNode, h, Except.map]

/-- Predicate `any` distributes over a pointwise disjunction. -/
theorem list_any_or {α : Type} (l : List α) (f g : α → Bool) :
    (l.any fun x => f x || g x) = (l.any f || l.any g) := by
  induction l with
  | nil => rfl
  | cons a t ih =>
    simp only [List.any_cons, ih]
    cases f a <;> cases g a <;> simp

/-- The source-side matcher (Python regular expression plus `imgur`
substring test) agrees pointwise with the amended claim-side
matcher. -/
theorem pyMatch_eq_amended (h : String) : pyMatchImage h = amendedMatchImage h := by
  unfold pyMatchImage amendedMatchImage
  rw [list_any_or, Bool.or_assoc]

/-- The anchor-scanning loop of `find_image` equals the claim-side
formulation: first `href` among the present-`href` anchors accepted by
the amended matcher. -/
theorem findImageAnchors_eq_spec (ars : List (List (String × String))) :
    findImageAnchors ars
      = (ars.filterMap (fun a => a.lookup "href")).find? amendedMatchImage := by
  induction ars with
  | nil => rfl
  | cons a rest ih =>
    simp only [findImageAnchors, List.filterMap_cons]
    cases hl : a.lookup "href" with
    | none => simpa using ih
    | some href =>
      have hme : amendedMatchImage href = pyMatchImage href := (pyMatch_eq_amended href).symm
      cases hm : pyMatchImage href with
      | false =>
        rw [hm] at hme
        simp [List.find?, hme, hm, ih]
      | true =>
        rw [hm] at hme
        simp [List.find?, hme, hm]

/-- C5 as amended: `find_image` scans anchors in document order,
skips anchors without a link attribute, and returns the first link
that ends with a period plus one of jpg/jpeg/png/gif/webp — possibly
followed by one final newline, since Python's `$` anchor also matches
just before a trailing newline — or contains the substring `imgur`;
absent if no anchor matches (first match wins). -/
theorem C5_locator_amended (desc : String) :
    find_image desc = (parseHtml desc).map (fun ns => findImageSpec ns) := by
  unfold find_image findImageSpec
  cases h : parseHtml desc with
  | error e => simp [Except.map]
  | ok ns => simp [Except.map, findImageAnchors_eq_spec]

/-- C5 counterexample: a link target with a trailing newline after the
extension is accepted by the code (Python `$` matches before a final
newline), although it does not end with any of the five extensions —
the claim's end-of-string-anchored matcher rejects it, so under the
claim `find_image` would return absent here. -/
theorem C5_trailing_newline_cx :
    find_image "<a href=\"http://e/x.png\n\">z</a>" = .ok (some "http://e/x.png\n")
    ∧ claimMatchImage "http://e/x.png\n" = false :=
  ⟨rfl, by decide⟩

/-- A member of the children list is smaller than the element node. -/
theorem sizeOf_child_lt (c : Node) (name : String) (attrs : List (String × String))
    (children : List Node) (hc : c ∈ children) :
    sizeOf c < sizeOf (Node.elem name attrs children) := by
  have h1 := List.sizeOf_lt_of_mem hc
  have h2 : sizeOf (Node.elem name attrs children)
      = 1 + sizeOf name + sizeOf attrs + sizeOf children := by
    simp [Node.elem.sizeOf_spec]
  omega

/-- If every element of `l` is pass-stable after one rewrite, so is the
rewritten list. -/
theorem passList_stable_of (l : List Node)
    (hst : ∀ c ∈ l, ∀ c', passNode c = .ok c' → passNode c' = .ok c') :
    ∀ l', passList l = .ok l' → passList l' = .ok l' := by
  induction l with
  | nil =>
    intro l' h
    simp only [passList] at h
    injection h with h2
    subst h2
    rfl
  | cons c cs ih =>
    intro l' h
    simp only [passList] at h
    split at h
    · exact Except.noConfusion h
    · rename_i c' hc
      split at h
      · exact Except.noConfusion h
      · rename_i cs' hcs
        injection h with h2
        subst h2
        have s1 : passNode c' = .ok c' := hst c (List.mem_cons_self _ _) c' hc
        have s2 : passList cs' = .ok cs' :=
          ih (fun x hx => hst x (List.mem_cons_of_mem _ hx)) cs' hcs
        simp [passList, s1, s2]

/-- Core stability lemma, by strong induction on the node size: the
output of one rewrite pass is itself unchanged by a further pass.
After a pass, every remaining element is either in the preserved
vocabulary or a generic tag with at least two children, and both kinds
are left alone by the rule chain. -/
theorem passNode_stable_aux : ∀ (n : Nat) (t : Node), sizeOf t ≤ n →
    ∀ t', passNode t = .ok t' → passNode t' = .ok t' := by
  intro n
  induction n with
  | zero =>
    intro t ht
    cases t with
    | text s =>
      intro t' h
      simp only [passNode] at h
      injection h with h2
      subst h2
      rfl
    | elem name attrs children =>
      exfalso
      have h2 : sizeOf (Node.elem name attrs children)
          = 1 + sizeOf name + sizeOf attrs + sizeOf children := by
        simp [Node.elem.sizeOf_spec]
      omega
  | succ n ih =>
    intro t ht
    cases t with
    | text s =>
      intro t' h
      simp only [passNode] at h
      injection h with h2
      subst h2
      rfl
    | elem name attrs children =>
      have hch : ∀ c ∈ children, ∀ c', passNode c = .ok c' → passNode c' = .ok c' := by
        intro c hc
        apply ih
        have h1 := sizeOf_child_lt c name attrs children hc
        omega
      intro t' h
      simp only [passNode] at h
      split at h
      · exact Except.noConfusion h
      · rename_i cs hcl
        have hcs : passList cs = .ok cs := passList_stable_of children hch cs hcl
        by_cases hbr : name == "br"
        · rw [if_pos hbr] at h
          injection h with h2
          subst h2
          rfl
        · rw [if_neg hbr] at h
          by_cases hp : name == "p"
          · rw [if_pos hp] at h
            injection h with h2
            subst h2
            rfl
          · rw [if_neg hp] at h
            by_cases hli : name == "li"
            · rw [if_pos hli] at h
              cases cs with
              | nil => simp at h
              | cons c0 cs0 =>
                simp only [] at h
                injection h with h2
                subst h2
                rfl
            · rw [if_neg hli] at h
              by_cases hpres : name ∈ preservedTags
              · rw [if_pos hpres] at h
                injection h with h2
                subst h2
                simp [passNode, hcs, hbr, hp, hli, hpres]
              · rw [if_neg hpres] at h
                cases cs with
                | nil =>
                  simp only [] at h
                  injection h with h2
                  subst h2
                  rfl
                | cons c0 cs0 =>
                  cases cs0 with
                  | nil =>
                    simp only [] at h
                    injection h with h2
                    subst h2
                    simp only [passList] at hcs
                    split at hcs
                    · exact Except.noConfusion hcs
                    · rename_i c0' hc0
                      injection hcs with h3
                      injection h3 with h4 h5
                      subst h4
                      exact hc0
                  | cons c1 cs1 =>
                    simp only [] at h
                    injection h with h2
                    subst h2
                    simp [passNode, hcs, hbr, hp, hli, hpres]

/-- Every node is pass-stable after one rewrite pass. -/
theorem passNode_stable (t : Node) :
    ∀ t', passNode t = .ok t' → passNode t' = .ok t' :=
  passNode_stable_aux (sizeOf t) t (Nat.le_refl _)

/-- Every sibling list is pass-stable after one rewrite pass. -/
theorem passList_stable (l l' : List Node) (h : passList l = .ok l') :
    passList l' = .ok l' :=
  passList_stable_of l (fun c _ => passNode_stable c) l' h

/-- A successful run of the bounded fixed-point loop (at least one
pass of fuel) always returns a post-pass tree. -/
theorem minifyLoop_post : ∀ (fuel : Nat) (ns ns' : List Node),
    minifyLoop (fuel + 1) ns = .ok ns' → passList ns' = .ok ns' := by
  intro fuel
  induction fuel with
  | zero =>
    intro ns ns' h
    simp only [minifyLoop] at h
    split at h
    · exact Except.noConfusion h
    · rename_i ms hms
      split at h
      · injection h with h2
        subst h2
        exact passList_stable _ _ hms
      · injection h with h2
        subst h2
        exact passList_stable _ _ hms
  | succ n ihn =>
    intro ns ns' h
    simp only [minifyLoop] at h
    split at h
    · exact Except.noConfusion h
    · rename_i ms hms
      split at h
      · injection h with h2
        subst h2
        exact passList_stable _ _ hms
      · exact ihn ms ns' h

/-- A pass-stable tree is a fixed point of the loop for every fuel. -/
theorem minifyLoop_fix (ns : List Node) (h : passList ns = .ok ns) :
    ∀ fuel, minifyLoop fuel ns = .ok ns := by
  intro fuel
  cases fuel with
  | zero => rfl
  | succ n => simp [minifyLoop, h]

/-- C4 as amended: the fixed-point rewrite is idempotent at the
parse-tree level — rerunning the bounded loop on a tree it produced
returns that tree unchanged, for any iteration budget.  At the string
level, `normalize(normalize(x))` can differ from `normalize(x)`,
because serializing and reparsing merges the adjacent text nodes the
rewrite created (see the counterexample), so the claim holds only
below the serialize/reparse boundary. -/
theorem C4_tree_idempotence (fuel fuel' : Nat) (ns ns' : List Node)
    (hf : 1 ≤ fuel) (h : minifyLoop fuel ns = .ok ns') :
    minifyLoop fuel' ns' = .ok ns' := by
  obtain ⟨k, rfl⟩ : ∃ k, fuel = k + 1 := ⟨fuel - 1, by omega⟩
  exact minifyLoop_fix ns' (minifyLoop_post k ns ns' h) fuel'

/-- Witness for C4's amended statement at a concrete tree. -/
theorem C4_tree_idempotence_witness :
    minifyLoop 3 [Node.text "w"] = .ok [Node.text "w"] :=
  C4_tree_idempotence 1 3 [Node.text "w"] [Node.text "w"] (by decide) rfl

/-- C4 counterexample: `x = "<div><u>a</u><u>b</u></div>"`.  One pass
unwraps both `u` wrappers, leaving the `div` with two adjacent text
children, which no rule touches; serialization gives
`"<div>ab</div>"`, which REPARSES to a `div` with a single text child,
so the second `normalize` unwraps it to `"ab"` — hence
`normalize(normalize(x)) ≠ normalize(x)`. -/
theorem C4_string_cx :
    html_minify "<div><u>a</u><u>b</u></div>" = .ok "<div>ab</div>"
    ∧ html_minify "<div>ab</div>" = .ok "ab"
    ∧ ("<div>ab</div>" : String) ≠ "ab" :=
  ⟨rfl, rfl, by decide⟩

/-- Appending the empty string on the right is the identity. -/
theorem str_append_empty (s : String) : s ++ "" = s := by
  cases s with
  | mk data =>
    show String.mk (data ++ []) = String.mk data
    rw [List.append_nil]

/-- A pass maps children one to one, so only the empty list rewrites
to the empty list. -/
theorem passList_nil_inv (l : List Node) (h : passList l = .ok []) : l = [] := by
  cases l with
  | nil => rfl
  | cons c cs =>
    exfalso
    simp only [passList] at h
    split at h
    · exact Except.noConfusion h
    · rename_i c' hc
      split at h
      · exact Except.noConfusion h
      · rename_i cs' hcs
        injection h with h2
        exact List.noConfusion h2

/-- Text preservation over a sibling list, given it for the
elements. -/
theorem listText_preserved_of (l : List Node)
    (hst : ∀ c ∈ l, goodNode c = true → ∀ c', passNode c = .ok c' → nodeText c' = nodeText c)
    (hg : goodList l = true) :
    ∀ l', passList l = .ok l' → listText l' = listText l := by
  induction l with
  | nil =>
    intro l' h
    injection h with h2
    subst h2
    rfl
  | cons c cs ih =>
    intro l' h
    simp only [goodList, Bool.and_eq_true] at hg
    simp only [passList] at h
    split at h
    · exact Except.noConfusion h
    · rename_i c' hc
      split at h
      · exact Except.noConfusion h
      · rename_i cs' hcs
        injection h with h2
        subst h2
        simp only [listText]
        rw [hst c (List.mem_cons_self _ _) hg.1 c' hc,
          ih (fun x hx => hst x (List.mem_cons_of_mem _ hx)) hg.2 cs' hcs]

/-- Core text-preservation lemma: on a subtree containing no `br`, `p`
or `li` element, one rewrite pass preserves the text content
exactly. -/
theorem nodeText_preserved_aux : ∀ (n : Nat) (t : Node), sizeOf t ≤ n →
    goodNode t = true → ∀ t', passNode t = .ok t' → nodeText t' = nodeText t := by
  intro n
  induction n with
  | zero =>
    intro t ht
    cases t with
    | text s =>
      intro _ t' h
      injection h with h2
      subst h2
      rfl
    | elem name attrs children =>
      exfalso
      have h2 : sizeOf (Node.elem name attrs children)
          = 1 + sizeOf name + sizeOf attrs + sizeOf children := by
        simp [Node.elem.sizeOf_spec]
      omega
  | succ n ih =>
    intro t ht
    cases t with
    | text s =>
      intro _ t' h
      injection h with h2
      subst h2
      rfl
    | elem name attrs children =>
      intro hg t' h
      simp only [goodNode, Bool.and_eq_true, Bool.not_eq_true'] at hg
      obtain ⟨⟨⟨hbr, hp⟩, hli⟩, hgl⟩ := hg
      have hch : ∀ c ∈ children, goodNode c = true →
          ∀ c', passNode c = .ok c' → nodeText c' = nodeText c := by
        intro c hc
        apply ih
        have h1 := sizeOf_child_lt c name attrs children hc
        omega
      simp only [passNode] at h
      split at h
      · exact Except.noConfusion h
      · rename_i cs hcl
        have htext : listText cs = listText children :=
          listText_preserved_of children hch hgl cs hcl
        rw [if_neg (by rw [hbr]; exact Bool.false_ne_true)] at h
        rw [if_neg (by rw [hp]; exact Bool.false_ne_true)] at h
        rw [if_neg (by rw [hli]; exact Bool.false_ne_true)] at h
        by_cases hpres : name ∈ preservedTags
        · rw [if_pos hpres] at h
          injection h with h2
          subst h2
          exact htext
        · rw [if_neg hpres] at h
          cases cs with
          | nil =>
            simp only [] at h
            injection h with h2
            subst h2
            have hempty : children = [] := passList_nil_inv children hcl
            subst hempty
            rfl
          | cons c0 cs0 =>
            cases cs0 with
            | nil =>
              simp only [] at h
              injection h with h2
              subst h2
              show nodeText c0 = nodeText (Node.elem name attrs children)
              have : nodeText c0 ++ "" = listText children := htext
              rw [str_append_empty] at this
              exact this
            | cons c1 cs1 =>
              simp only [] at h
              injection h with h2
              subst h2
              exact htext

/-- C8 as amended: tags of the preserved vocabulary are never
themselves replaced or renamed — the rule chain returns them with
their attributes untouched at any nesting depth — and their text
content is preserved whenever the subtree contains no `br`, `p` or
`li` element.  (A nested `li` or `p` DOES change the text inside a
preserved tag: the `li` rule duplicates its first child's text and the
`p` rule strips and prefixes a newline — see the counterexample.) -/
theorem C8_preserved_amended :
    (∀ name, name ∈ preservedTags →
      ∀ (attrs : List (String × String)) (children cs : List Node),
        passList children = .ok cs →
        passNode (.elem name attrs children) = .ok (.elem name attrs cs))
    ∧ ∀ (t t' : Node), goodNode t = true → passNode t = .ok t' →
        nodeText t' = nodeText t := by
  constructor
  · intro name hmem attrs children cs h
    simp only [preservedTags, List.mem_cons, List.not_mem_nil, or_false] at hmem
    rcases hmem with rfl | rfl | rfl | rfl | rfl <;> (simp only [passNode]; rw [h]; rfl)
  · intro t t' hg h
    exact nodeText_preserved_aux (sizeOf t) t (Nat.le_refl _) hg t' h

/-- Witness for C8's amended statement: a `b` tag with an attribute
passes through unchanged, and a generic wrapper's unwrap preserves
text. -/
theorem C8_preserved_amended_witness :
    passNode (.elem "b" [("class", "x")] [Node.text "q"])
      = .ok (.elem "b" [("class", "x")] [Node.text "q"])
    ∧ nodeText (Node.text "zz") = nodeText (Node.elem "span" [] [Node.text "zz"]) :=
  ⟨C8_preserved_amended.1 "b" (by decide) [("class", "x")] [Node.text "q"]
      [Node.text "q"] rfl,
   C8_preserved_amended.2 (Node.elem "span" [] [Node.text "zz"]) (Node.text "zz")
      (by decide) rfl⟩

/-- C8 counterexample: an `li` nested inside a preserved `b` tag
duplicates the text — `normalize("<b><li>aa</li></b>") =
"<b>aaaa</b>"` — so the `b` tag does NOT survive with its text
preserved, contradicting the claim's unconditional "attributes and
text preserved ... regardless of nesting depth". -/
theorem C8_nested_li_cx :
    html_minify "<b><li>aa</li></b>" = .ok "<b>aaaa</b>"
    ∧ ("aaaa" : String) ≠ "aa" :=
  ⟨rfl, by decide⟩

end LemmyBot
